import Mathlib

/-!
Formal model of the WSC (visual-novel script container) round-trip codec:
`decompiler.py` (string extraction, multi-encoding decode, keep/drop
classification, speaker resolution, transcript rendering) and
`recompiler.py` (transcript parsing, content re-encoding, offset
reconciliation, validation).

Bytes are modelled as `Nat` (values `< 256` in all real inputs); text as
Lean `String`/`List Char` (Python `str` is a sequence of Unicode code
points, as is `List Char`).  Python functions that can raise are modelled
with `Option`.  Recursion that walks a buffer by variable-sized steps uses
an explicit fuel argument bounded by the buffer length, so that every
definition is structurally recursive and kernel-evaluable.
-/

namespace WSC

/-! ### Models of Python built-ins

These model the CPython behaviour of `str.strip`, `str.isprintable`,
`str.replace`, `str.split`, `str.startswith`/`endswith`, and `int(s, 16)`
on the inputs this development manipulates. -/

/-- Model of Python `str.isspace` for a single character: the Unicode
whitespace set CPython strips in `str.strip()`. -/
def pyIsSpace (c : Char) : Bool :=
  decide (c = ' ') ||
  decide (9 ≤ c.toNat ∧ c.toNat ≤ 13) ||
  decide (28 ≤ c.toNat ∧ c.toNat ≤ 31) ||
  decide (c.toNat = 0x85) || decide (c.toNat = 0xA0) ||
  decide (c.toNat = 0x1680) ||
  decide (0x2000 ≤ c.toNat ∧ c.toNat ≤ 0x200A) ||
  decide (c.toNat = 0x2028) || decide (c.toNat = 0x2029) ||
  decide (c.toNat = 0x202F) || decide (c.toNat = 0x205F) ||
  decide (c.toNat = 0x3000)

/-- Python `str.strip()` on a character list. -/
def pyStripList (l : List Char) : List Char :=
  ((l.dropWhile pyIsSpace).reverse.dropWhile pyIsSpace).reverse

/-- Python `str.strip()`. -/
def pyStrip (s : String) : String := ⟨pyStripList s.data⟩

/-- Model of Python `str.isprintable` for a single character: false for
C0/C1 control characters, DEL, and non-ASCII-space whitespace/separator
characters; true otherwise.  (Exact on ASCII, the East-Asian ranges and
the whitespace set used in this development; rare format characters are
not modelled.) -/
def pyIsPrintable (c : Char) : Bool :=
  !(decide (c.toNat < 0x20)) && !(decide (c.toNat = 0x7F)) &&
  !(decide (0x7F < c.toNat ∧ c.toNat < 0xA0)) &&
  (decide (c = ' ') || !(pyIsSpace c))

/-- ASCII lower-casing of one character (the case folding `re.IGNORECASE`
applies to the ASCII pattern literals used in the source). -/
def asciiLower (c : Char) : Char :=
  if decide ('A' ≤ c ∧ c ≤ 'Z') then Char.ofNat (c.toNat + 32) else c

/-- Python `s.split('\n')` on a character list, with an accumulator for the
current piece (kept in reverse). -/
def splitNLAux : List Char → List Char → List String
  | [], acc => [⟨acc.reverse⟩]
  | c :: rest, acc =>
    if c = '\n' then ⟨acc.reverse⟩ :: splitNLAux rest []
    else splitNLAux rest (c :: acc)

/-- Python `s.split('\n')`. -/
def pySplitNL (s : String) : List String := splitNLAux s.data []

/-- Python `s.split(':')` on a character list. -/
def splitColonAux : List Char → List Char → List String
  | [], acc => [⟨acc.reverse⟩]
  | c :: rest, acc =>
    if c = ':' then ⟨acc.reverse⟩ :: splitColonAux rest []
    else splitColonAux rest (c :: acc)

/-- Python `s.split(':')`. -/
def pySplitColon (s : String) : List String := splitColonAux s.data []

/-- One step of Python `str.replace`: non-overlapping left-to-right
replacement of a non-empty pattern.  The fuel argument bounds the number
of consumed characters; the list length always suffices. -/
def pyReplaceAux (pat rep : List Char) : Nat → List Char → List Char
  | 0, l => l
  | _, [] => []
  | fuel + 1, c :: rest =>
    if pat.isPrefixOf (c :: rest) && !pat.isEmpty then
      rep ++ pyReplaceAux pat rep fuel ((c :: rest).drop pat.length)
    else
      c :: pyReplaceAux pat rep fuel rest

/-- Python `s.replace(pat, rep)` (for non-empty `pat`). -/
def pyReplace (s pat rep : String) : String :=
  ⟨pyReplaceAux pat.data rep.data s.data.length s.data⟩

/-- Python `s.startswith(pre)`. -/
def pyStartsWith (s pre : String) : Bool := pre.data.isPrefixOf s.data

/-- Python `s.endswith(suf)`. -/
def pyEndsWith (s suf : String) : Bool := suf.data.isSuffixOf s.data

/-- Python `c in s` for a single character. -/
def pyContainsChar (s : String) (c : Char) : Bool := s.data.contains c

/-- Hexadecimal digit test, as in Python `int(s, 16)`. -/
def isHexDigitChar (c : Char) : Bool :=
  c.isDigit || decide ('a' ≤ c ∧ c ≤ 'f') || decide ('A' ≤ c ∧ c ≤ 'F')

/-- Value of a hexadecimal digit. -/
def hexVal (c : Char) : Nat :=
  if c.isDigit then c.toNat - 48
  else if decide ('a' ≤ c ∧ c ≤ 'f') then c.toNat - 87
  else if decide ('A' ≤ c ∧ c ≤ 'F') then c.toNat - 55
  else 0

/-- Digits-with-underscores body of a hexadecimal literal, after the first
digit has been consumed: single underscores are allowed between digits,
never trailing or doubled (PEP 515, as enforced by `int(s, 16)`). -/
def hexCoreAux : List Char → Nat → Option Nat
  | [], acc => some acc
  | '_' :: d :: rest, acc =>
    if isHexDigitChar d then hexCoreAux rest (acc * 16 + hexVal d) else none
  | ['_'], _ => none
  | d :: rest, acc =>
    if isHexDigitChar d then hexCoreAux rest (acc * 16 + hexVal d) else none

/-- A non-empty hexadecimal digit string (with PEP 515 underscores). -/
def hexCore : List Char → Option Nat
  | [] => none
  | d :: rest => if isHexDigitChar d then hexCoreAux rest (hexVal d) else none

/-- Model of Python `int(s, 16)`: strips whitespace, accepts one optional
sign and an optional `0x`/`0X` prefix (an underscore may follow the
prefix, modelled by re-seeding the digit string with `'0'`), then a
non-empty hex digit string; `none` models `ValueError`. -/
def pyIntHex (s : String) : Option Int :=
  match pyStripList s.data with
  | [] => none
  | c :: rest =>
    let signed : Bool × List Char :=
      if c = '-' then (true, rest)
      else if c = '+' then (false, rest)
      else (false, c :: rest)
    let body : Option (List Char) :=
      match signed.2 with
      | '0' :: x :: r =>
        if x = 'x' ∨ x = 'X' then (if r.isEmpty then none else some ('0' :: r))
        else some signed.2
      | _ => some signed.2
    match body with
    | none => none
    | some b =>
      match hexCore b with
      | none => none
      | some v => some (if signed.1 then -(v : Int) else (v : Int))

/-- Uppercase hexadecimal digit. -/
def hexDigitU (n : Nat) : Char :=
  if n < 10 then Char.ofNat (48 + n) else Char.ofNat (55 + n)

/-- Uppercase hexadecimal digits of `n`, most significant first (empty for
zero); 16 units of fuel cover every offset a real buffer can produce. -/
def hexCharsAux : Nat → Nat → List Char
  | 0, _ => []
  | fuel + 1, n =>
    if n = 0 then [] else hexCharsAux fuel (n / 16) ++ [hexDigitU (n % 16)]

/-- Python `f"{n:08X}"`. -/
def hex8 (n : Nat) : String :=
  ⟨List.replicate (8 - (hexCharsAux 16 n).length) '0' ++ hexCharsAux 16 n⟩

/-! ### Models of the Python codecs

`cp932`/`shift_jis` are modelled exactly on ASCII plus the double-byte
characters appearing in this development (the real CP932 byte pairs, as
also hard-coded in the repository's own tests); all other code points and
lead bytes are treated as unmapped, which only narrows the domain of the
partial functions.  `utf-8` is the standard validating decoder; `latin-1`
maps byte `b` to code point `b` and never fails. -/

/-- CP932 double-byte table (real CP932/Shift-JIS values) for the
characters used in this development. -/
def cp932Table : List (Char × Nat × Nat) :=
  [ ('あ', 0x82, 0xA0), ('い', 0x82, 0xA2), ('こ', 0x82, 0xB1),
    ('ん', 0x82, 0xF1), ('に', 0x82, 0xC9), ('ち', 0x82, 0xBF),
    ('は', 0x82, 0xCD), ('。', 0x81, 0x42), ('夜', 0x96, 0xE9),
    ('久', 0x8B, 0x56) ]

/-- Encode one character in CP932: ASCII maps to its own byte, table
characters to their double-byte sequence; everything else is unmapped. -/
def cp932EncodeChar (c : Char) : Option (List Nat) :=
  if c.toNat < 0x80 then some [c.toNat]
  else
    match cp932Table.find? (fun t => t.1 = c) with
    | some t => some [t.2.1, t.2.2]
    | none => none

/-- Encode a character list in CP932 (`none` models `UnicodeEncodeError`). -/
def cp932EncodeList : List Char → Option (List Nat)
  | [] => some []
  | c :: rest =>
    match cp932EncodeChar c, cp932EncodeList rest with
    | some bs, some rs => some (bs ++ rs)
    | _, _ => none

/-- Python `s.encode('cp932')`. -/
def cp932Encode (s : String) : Option (List Nat) := cp932EncodeList s.data

/-- Look up a CP932 double-byte pair. -/
def cp932PairChar (b1 b2 : Nat) : Option Char :=
  (cp932Table.find? (fun t => t.2.1 = b1 ∧ t.2.2 = b2)).map (fun t => t.1)

/-- Decode CP932 bytes (`none` models `UnicodeDecodeError`). -/
def cp932DecodeList : List Nat → Option (List Char)
  | [] => some []
  | b :: rest =>
    if b < 0x80 then (cp932DecodeList rest).map (fun cs => Char.ofNat b :: cs)
    else
      match rest with
      | [] => none
      | b2 :: rest2 =>
        match cp932PairChar b b2 with
        | some c => (cp932DecodeList rest2).map (fun cs => c :: cs)
        | none => none

/-- Python `raw.decode('cp932')`. -/
def cp932Decode (bs : List Nat) : Option String :=
  (cp932DecodeList bs).map (fun cs => ⟨cs⟩)

/-- Python `raw.decode('shift_jis')`: on the modelled subset (ASCII and the
JIS X 0208 characters of `cp932Table`) Shift-JIS agrees with CP932. -/
def shiftJisDecode (bs : List Nat) : Option String := cp932Decode bs

/-- Python `s.encode('shift_jis')`, same modelled subset. -/
def shiftJisEncode (s : String) : Option (List Nat) := cp932Encode s

/-- Standard validating UTF-8 decoder (rejects truncated sequences,
continuation errors, overlong forms, surrogates and values above
`0x10FFFF`), as Python's `utf-8` codec does. -/
def utf8Aux : List Nat → Option (List Char)
  | [] => some []
  | b :: rest =>
    if b < 0x80 then (utf8Aux rest).map (fun cs => Char.ofNat b :: cs)
    else if b < 0xC2 then none
    else if b < 0xE0 then
      match rest with
      | b2 :: r =>
        if 0x80 ≤ b2 ∧ b2 < 0xC0 then
          (utf8Aux r).map (fun cs => Char.ofNat ((b - 0xC0) * 64 + (b2 - 0x80)) :: cs)
        else none
      | [] => none
    else if b < 0xF0 then
      match rest with
      | b2 :: b3 :: r =>
        if (0x80 ≤ b2 ∧ b2 < 0xC0) ∧ (0x80 ≤ b3 ∧ b3 < 0xC0) then
          let cp := (b - 0xE0) * 4096 + (b2 - 0x80) * 64 + (b3 - 0x80)
          if cp < 0x800 ∨ (0xD800 ≤ cp ∧ cp ≤ 0xDFFF) then none
          else (utf8Aux r).map (fun cs => Char.ofNat cp :: cs)
        else none
      | _ => none
    else if b < 0xF5 then
      match rest with
      | b2 :: b3 :: b4 :: r =>
        if (0x80 ≤ b2 ∧ b2 < 0xC0) ∧ (0x80 ≤ b3 ∧ b3 < 0xC0) ∧ (0x80 ≤ b4 ∧ b4 < 0xC0) then
          let cp := (b - 0xF0) * 262144 + (b2 - 0x80) * 4096 + (b3 - 0x80) * 64 + (b4 - 0x80)
          if cp < 0x10000 ∨ 0x10FFFF < cp then none
          else (utf8Aux r).map (fun cs => Char.ofNat cp :: cs)
        else none
      | _ => none
    else none

/-- Python `raw.decode('utf-8')`. -/
def utf8Decode (bs : List Nat) : Option String :=
  (utf8Aux bs).map (fun cs => ⟨cs⟩)

/-- Python `raw.decode('latin-1')`: total, byte `b` becomes code point `b`. -/
def latin1DecodeStr (bs : List Nat) : String := ⟨bs.map Char.ofNat⟩

/-- Python `s.encode('latin-1')` (strict): fails on code points above 255. -/
def latin1EncodeStrict (s : String) : Option (List Nat) :=
  if s.data.all (fun c => c.toNat < 256) then some (s.data.map Char.toNat)
  else none

/-- Python `s.encode('latin-1', errors='replace')`: total, out-of-range
code points become `'?'` (byte 63). -/
def latin1EncodeReplace (s : String) : List Nat :=
  s.data.map (fun c => if c.toNat < 256 then c.toNat else 63)

/-! ### decompiler.py -/

/-- `DECODERS = ["cp932", "shift_jis", "utf-8", "latin-1"]`, each with its
decoding function; the `latin-1` member never fails. -/
def DECODERS : List (String × (List Nat → Option String)) :=
  [ ("cp932", cp932Decode), ("shift_jis", shiftJisDecode),
    ("utf-8", utf8Decode), ("latin-1", fun raw => some (latin1DecodeStr raw)) ]

/-- The `for enc in DECODERS: try ...` loop of `decode_try`: first decoder
that succeeds wins. -/
def tryDecoders : List (String × (List Nat → Option String)) → List Nat →
    Option (String × String)
  | [], _ => none
  | (tag, d) :: rest, raw =>
    match d raw with
    | some t => some (t, tag)
    | none => tryDecoders rest raw

/-- `decode_try(raw)`: try each decoder in order, with the final
`latin-1, errors='replace'` fallback (unreachable, since the `latin-1`
list member already always succeeds). -/
def decode_try (raw : List Nat) : String × String :=
  match tryDecoders DECODERS raw with
  | some r => r
  | none => (latin1DecodeStr raw, "latin-1")

/-- `SPEAKER_BYTE = b"\x0F"`. -/
def SPEAKER_BYTE : List Nat := [0x0F]

/-- One record of `extract_all_null_strings`: the Python tuple
`(start, end, raw, decoded)`; `end` is a Lean keyword, so the field is
named `stop`. -/
structure NullRun where
  start : Nat
  stop : Nat
  raw : List Nat
  decoded : String
deriving DecidableEq

/-- The scanning loop of `extract_all_null_strings`: skip null bytes,
then take a maximal non-zero run `[start, end)` and resume at `end + 1`
(skipping the terminator).  The fuel argument bounds the number of
consumed bytes; the buffer length always suffices. -/
def extractAux : Nat → List Nat → Nat → List NullRun
  | 0, _, _ => []
  | _, [], _ => []
  | fuel + 1, b :: rest, pos =>
    if b = 0 then extractAux fuel rest (pos + 1)
    else
      let run := b :: rest.takeWhile (fun x => !(x == 0))
      let after := rest.dropWhile (fun x => !(x == 0))
      ⟨pos, pos + run.length, run, (decode_try run).1⟩ ::
        extractAux fuel (after.drop 1) (pos + run.length + 1)

/-- `extract_all_null_strings(data)`. -/
def extract_all_null_strings (data : List Nat) : List NullRun :=
  extractAux data.length data 0

/-- Rebuilds a byte buffer from extracted runs: the zero bytes between
`pos` and the next run's `start` are the terminator and the skipped empty
runs, then the run's bytes, continuing from its `stop`; the tail from the
last `stop` to `total` is again all zeros. -/
def rebuildRuns : List NullRun → Nat → Nat → List Nat
  | [], pos, total => List.replicate (total - pos) 0
  | r :: rest, pos, total =>
    List.replicate (r.start - pos) 0 ++ r.raw ++ rebuildRuns rest r.stop total

/-- `re_cjk = [　-〿぀-ゟ゠-ヿ一-鿿]`
membership for one character. -/
def isCJKChar (c : Char) : Bool :=
  decide (0x3000 ≤ c.toNat ∧ c.toNat ≤ 0x303F) ||
  decide (0x3040 ≤ c.toNat ∧ c.toNat ≤ 0x309F) ||
  decide (0x30A0 ≤ c.toNat ∧ c.toNat ≤ 0x30FF) ||
  decide (0x4E00 ≤ c.toNat ∧ c.toNat ≤ 0x9FFF)

/-- `[぀-ヿ一-鿿]` membership (the `re_japanese_name`
character class). -/
def isJpNameChar (c : Char) : Bool :=
  decide (0x3040 ≤ c.toNat ∧ c.toNat ≤ 0x30FF) ||
  decide (0x4E00 ≤ c.toNat ∧ c.toNat ≤ 0x9FFF)

/-- The span a `$`-anchored Python regex must cover: the whole string, or
the whole string minus one trailing newline (`$` also matches just before
a final `'\n'`). -/
def dollarCore (cs : List Char) : List Char :=
  if cs.getLast? = some '\n' then cs.dropLast else cs

/-- `re_japanese_name = ^[぀-ヿ一-鿿]{1,8}$` applied with
`search` or `match` (equivalent here, as `^` anchors the start): the
`$`-span is 1 to 8 name-class characters. -/
def reJapaneseName (s : String) : Bool :=
  let core := dollarCore s.data
  decide (1 ≤ core.length ∧ core.length ≤ 8) && core.all isJpNameChar

/-- A `^PRE[cls]+$` keep-pattern under `re.IGNORECASE` (`pre` is given
lower-case): the `$`-span starts with `pre` and continues with one or
more class characters. -/
def anchoredPat (pre : String) (cls : Char → Bool) (s : String) : Bool :=
  let core := dollarCore s.data
  ((core.take pre.data.length).map asciiLower == pre.data) &&
  !(core.drop pre.data.length).isEmpty &&
  (core.drop pre.data.length).all cls

/-- The `[0-9A-Za-z_.-]` class. -/
def wordDotDash (c : Char) : Bool :=
  c.isAlphanum || decide (c = '_') || decide (c = '.') || decide (c = '-')

/-- The `[0-9_]` class. -/
def digitUnder (c : Char) : Bool := c.isDigit || decide (c = '_')

/-- The `[0-9A-Za-z_]` class. -/
def wordUnder (c : Char) : Bool := c.isAlphanum || decide (c = '_')

/-- `.+\.ogg$` under `re.IGNORECASE` with `search`: the string (minus an
optional trailing newline) ends in `.ogg` preceded by at least one
non-newline character. -/
def oggPat (s : String) : Bool :=
  let core := dollarCore s.data
  decide (5 ≤ core.length) &&
  ((core.drop (core.length - 4)).map asciiLower == ".ogg".data) &&
  !(core.getD (core.length - 5) ' ' == '\n')

/-- `KEEP_PATTERNS`, in source order, as `search` predicates. -/
def KEEP_PATTERNS : List (String → Bool) :=
  [ anchoredPat "se_" wordDotDash,
    anchoredPat "bgm_" wordDotDash,
    anchoredPat "bg" digitUnder,
    anchoredPat "st" wordUnder,
    anchoredPat "day" wordUnder,
    anchoredPat "hos_" wordUnder,
    oggPat,
    fun s => pyContainsChar s '%' ]

/-- Number of printable characters of `s` (Python
`sum(1 for ch in s if ch.isprintable())`). -/
def printableCount (s : String) : Nat := (s.data.filter pyIsPrintable).length

/-- `is_meaningful(decoded, raw)`: drop whitespace-only text; keep
marker-prefixed raw bytes, CJK text, keep-pattern matches, and otherwise
text of length ≥ 3 with printable ratio ≥ 0.5 (`2 * printable ≥ length`
is the exact rational form of `printable / len(s) >= 0.5`). -/
def is_meaningful (decoded : String) (raw : List Nat) : Bool :=
  let s := pyStrip decoded
  if s = "" then false
  else if SPEAKER_BYTE.isPrefixOf raw then true
  else if s.data.any isCJKChar then true
  else if KEEP_PATTERNS.any (fun p => p s) then true
  else decide (3 ≤ s.length) && decide (s.length ≤ 2 * printableCount s)

/-- `sanitize(s)`: remove carriage returns, rewrite newlines as the
two-character sequence `\n`. -/
def sanitize (s : String) : String :=
  pyReplace (pyReplace s "\r" "") "\n" "\\n"

/-- `convert_speaker(decoded, raw)`: on a marker-prefixed record, strip
all leading `0x0F` bytes, decode the remainder (CP932 first, then
`decode_try`), trim it; a 1–8 character Japanese-name-shaped remainder
becomes `"." + rem`, anything else becomes `rem`; a record of only
markers returns `decoded` unchanged. -/
def convert_speaker (decoded : String) (raw : List Nat) : String :=
  if !SPEAKER_BYTE.isPrefixOf raw then decoded
  else
    let rest := raw.dropWhile (fun x => x == 0x0F)
    if rest.isEmpty then decoded
    else
      let remainder :=
        match cp932Decode rest with
        | some t => t
        | none => (decode_try rest).1
      let rem := pyStrip remainder
      if decide (1 ≤ rem.length ∧ rem.length ≤ 8) && reJapaneseName rem then
        "." ++ rem
      else rem

/-- The records `decompile_wsc_file` keeps. -/
def keptRecords (data : List Nat) : List NullRun :=
  (extract_all_null_strings data).filter (fun r => is_meaningful r.decoded r.raw)

/-- The content line `decompile_wsc_file` writes for one kept record. -/
def recordLine (r : NullRun) : String :=
  convert_speaker (sanitize r.decoded) r.raw

/-- The full text `decompile_wsc_file` writes:
`<START:END>` header (8 uppercase hex digits each), content line, blank
line, per kept record. -/
def decompileText (data : List Nat) : String :=
  String.join ((keptRecords data).map (fun r =>
    "<" ++ hex8 r.start ++ ":" ++ hex8 r.stop ++ ">" ++ "\n" ++
      recordLine r ++ "\n\n"))

/-! ### recompiler.py -/

/-- `WSCEntry`: offsets are Python ints (hex headers may carry signs), and
`original_length` is fixed at construction as `end_offset - start_offset`
and never updated by the offset-mutating functions. -/
structure WSCEntry where
  start_offset : Int
  end_offset : Int
  content : String
  is_speaker : Bool
  original_length : Int
deriving DecidableEq

/-- `ValidationResult` (the `is_valid`/`needs_recalculation` flags and the
three accumulated message lists). -/
structure ValidationResult where
  is_valid : Bool
  errors : List String
  warnings : List String
  suggestions : List String
  needs_recalculation : Bool
deriving DecidableEq

/-- The `try` block of the header branch of `parse_github_format`:
`line[1:-1]` split on `':'` must give exactly two parts, each accepted by
`int(part, 16)`; `none` models the caught `ValueError`. -/
def headerOffsets (line : String) : Option (Int × Int) :=
  match pySplitColon ⟨(line.data.drop 1).dropLast⟩ with
  | [a, b] =>
    match pyIntHex a, pyIntHex b with
    | some s, some e => some (s, e)
    | _, _ => none
  | _ => none

/-- The shape test of the header branch:
`line.startswith('<') and ':' in line and line.endswith('>')`. -/
def headerShaped (line : String) : Bool :=
  pyStartsWith line "<" && pyContainsChar line ':' && pyEndsWith line ">"

/-- A header line the parser accepts (shape test passes and the offsets
parse): exactly the lines that produce an entry rather than an error. -/
def headerAccepted (line : String) : Bool :=
  headerShaped line && (headerOffsets line).isSome

/-- The main loop of `parse_github_format` over `lines[i:]`, returning
`(entries, errors, suggestions)`: blank lines are skipped; an accepted
header consumes the header line and the following content line (dot
prefix of length > 1 marks a speaker, the dot is stripped, literal `\n`
is restored); a failed header or a non-header line adds one error and
parsing continues with the next line. -/
def parseLoop : List String → Nat → List WSCEntry × List String × List String
  | [], _ => ([], [], [])
  | line0 :: rest, i =>
    let line := pyStrip line0
    if line = "" then parseLoop rest (i + 1)
    else if headerShaped line then
      match headerOffsets line with
      | some se =>
        let content := pyStrip (rest.headD "")
        let isSp := pyStartsWith content "." && decide (1 < content.length)
        let clean0 : String := if isSp then ⟨content.data.drop 1⟩ else content
        let clean := pyReplace clean0 "\\n" "\n"
        let entry : WSCEntry := ⟨se.1, se.2, clean, isSp, se.2 - se.1⟩
        match rest with
        | [] => ([entry], [], [])
        | _ :: rest2 =>
          let r := parseLoop rest2 (i + 2)
          (entry :: r.1, r.2.1, r.2.2)
      | none =>
        let r := parseLoop rest (i + 1)
        (r.1, s!"Invalid offset format on line {i + 1}: {line}" :: r.2.1,
          "Ensure format is <XXXXXXXX:XXXXXXXX>" :: r.2.2)
    else
      let r := parseLoop rest (i + 1)
      let shown : String := ⟨line.data.take 50⟩
      (r.1, s!"Expected offset format on line {i + 1}, got: {shown}..." :: r.2.1,
        r.2.2)

/-- The post-loop offset-ordering check (`entries[i].start_offset <=
entries[i-1].start_offset` adds a warning), with the loop index. -/
def orderingWarnings : List WSCEntry → Nat → List String
  | a :: b :: rest, i =>
    (if b.start_offset ≤ a.start_offset then
      [s!"Offset ordering issue: entry {i} starts before entry {i - 1}"]
    else []) ++ orderingWarnings (b :: rest) (i + 1)
  | _, _ => []

/-- Whether the ordering check fired at least once
(`needs_recalculation`). -/
def orderingBad : List WSCEntry → Bool
  | a :: b :: rest =>
    decide (b.start_offset ≤ a.start_offset) || orderingBad (b :: rest)
  | _ => false

/-- `parse_github_format(text)`: strip, split on newlines, run the loop;
with entries, `is_valid` is `errors == []` and the ordering check adds
warnings; with no entries, a fatal error and suggestion are added. -/
def parse_github_format (text : String) : List WSCEntry × ValidationResult :=
  let r := parseLoop (pySplitNL (pyStrip text)) 0
  if r.1.isEmpty then
    (r.1, ⟨false, r.2.1 ++ ["No valid WSC entries found"], [],
      r.2.2 ++ ["Ensure file contains <start:end> offset lines followed by content"],
      false⟩)
  else
    (r.1, ⟨r.2.1.isEmpty, r.2.1, orderingWarnings r.1 1, r.2.2, orderingBad r.1⟩)

/-- The encoding fallback ladder shared by every non-empty branch of
`content_to_binary`: `cp932` first, then (on failure) the
`['cp932', 'shift_jis', 'latin-1']` retry loop, then
`latin-1, errors='replace'` as last resort (so encoding never fails and
the `return b'\x00'` ultimate fallback is unreachable). -/
def contentEncode (s : String) : List Nat :=
  match cp932Encode s with
  | some bs => bs
  | none =>
    match cp932Encode s with
    | some bs => bs
    | none =>
      match shiftJisEncode s with
      | some bs => bs
      | none =>
        match latin1EncodeStrict s with
        | some bs => bs
        | none => latin1EncodeReplace s

/-- `re.match(r'^(DAY|BG|ST|HOS|SE|BGM|%).*', content)` (case-sensitive):
the content starts with one of the resource/audio/command heads. -/
def resourceHead (content : String) : Bool :=
  pyStartsWith content "DAY" || pyStartsWith content "BG" ||
  pyStartsWith content "ST" || pyStartsWith content "HOS" ||
  pyStartsWith content "SE" || pyStartsWith content "BGM" ||
  pyStartsWith content "%"

/-- `content_to_binary(content, is_speaker)`: speakers get two marker
bytes around the stripped content; non-speaker content whose
`re_japanese_name.search` succeeds without a resource head gets one
marker byte; other content is encoded plain; empty content is a lone
null terminator.  Every branch ends with the null terminator. -/
def content_to_binary (content : String) (is_speaker : Bool) : List Nat :=
  if is_speaker then
    if pyStrip content ≠ "" then
      ([0x0F, 0x0F] ++ contentEncode (pyStrip content)) ++ [0]
    else [0]
  else
    if pyStrip content ≠ "" then
      if reJapaneseName content && !resourceHead content then
        (0x0F :: contentEncode content) ++ [0]
      else contentEncode content ++ [0]
    else [0]

/-- The binary data of one entry
(`content_to_binary(entry.content, entry.is_speaker)`). -/
def entryBinary (e : WSCEntry) : List Nat :=
  content_to_binary e.content e.is_speaker

/-- `calculate_new_offsets(entries)` from a running offset: every entry's
binary is regenerated, `start_offset` becomes the running total and
`end_offset` the inclusive end `start + len - 1`. -/
def calculate_new_offsets : List WSCEntry → Int → List WSCEntry
  | [], _ => []
  | e :: rest, cur =>
    { e with start_offset := cur,
             end_offset := cur + ((entryBinary e).length : Int) - 1 } ::
      calculate_new_offsets rest (cur + ((entryBinary e).length : Int))

/-- `preserve_original_offsets(entries)`: true when every entry's
re-encoded binary has length `original_length + 1`. -/
def preserve_original_offsets (entries : List WSCEntry) : Bool :=
  entries.all (fun e => ((entryBinary e).length : Int) == e.original_length + 1)

/-- The entry list as it stands after `reconstruct_wsc_binary` has chosen
its mode: preserve mode keeps the entries untouched when every length
matches, and otherwise falls back to full recomputation. -/
def reconcileEntries (entries : List WSCEntry) (preserve : Bool) : List WSCEntry :=
  if preserve then
    if preserve_original_offsets entries then entries
    else calculate_new_offsets entries 0
  else calculate_new_offsets entries 0

/-- `reconstruct_wsc_binary(entries, preserve_offsets)`: concatenation of
the reconciled entries' binary data, in entry order. -/
def reconstruct_wsc_binary (entries : List WSCEntry) (preserve : Bool) : List Nat :=
  ((reconcileEntries entries preserve).map entryBinary).flatten

/-- The per-entry warning/suggestion pass of `validate_wsc_entries`. -/
def validateEntryLoop : List WSCEntry → Nat → List String × List String
  | [], _ => ([], [])
  | e :: rest, i =>
    let shown : String := ⟨e.content.data.take 50⟩
    let w1 : List String :=
      if (cp932Encode e.content).isNone then
        [s!"Entry {i + 1} contains characters not compatible with CP932"]
      else []
    let s1 : List String :=
      if (cp932Encode e.content).isNone then
        [s!"Consider modifying entry {i + 1}: {shown}..."]
      else []
    let badName := !reJapaneseName (pyStrip e.content) ||
      decide (8 < (pyStrip e.content).length)
    let w2 : List String :=
      if e.is_speaker && badName then
        [s!"Entry {i + 1} speaker name format may be unusual: {e.content}"]
      else []
    let s2 : List String :=
      if e.is_speaker && badName then
        ["Speaker names should be 1-8 Japanese characters"]
      else []
    let w3 : List String :=
      if pyStrip e.content = "" then [s!"Entry {i + 1} has empty content"] else []
    let r := validateEntryLoop rest (i + 1)
    (w1 ++ w2 ++ w3 ++ r.1, s1 ++ s2 ++ r.2)

/-- The offset-conflict check of `validate_wsc_entries`
(`entries[i].start_offset <= entries[i-1].end_offset` is an error). -/
def offsetConflicts : List WSCEntry → Nat → List String
  | a :: b :: rest, i =>
    (if b.start_offset ≤ a.end_offset then
      [s!"Offset conflict between entries {i} and {i + 1}"]
    else []) ++ offsetConflicts (b :: rest) (i + 1)
  | _, _ => []

/-- `validate_wsc_entries(entries)`. -/
def validate_wsc_entries (entries : List WSCEntry) : ValidationResult :=
  let ws := validateEntryLoop entries 0
  let errs := offsetConflicts entries 1
  ⟨errs.isEmpty, errs, ws.1, ws.2, !errs.isEmpty⟩

/-- `recompile_wsc_file` from the already-read transcript text (the file
I/O around it is out of scope): parse, stop with no binary on parse
errors, validate, stop with no binary on validation errors, otherwise
merge the results and reconstruct.  `none` models "produces no binary". -/
def recompile_wsc_text (text : String) (preserve : Bool) :
    Option (List Nat) × ValidationResult :=
  let pr := parse_github_format text
  if !pr.2.is_valid then (none, pr.2)
  else
    let vr := validate_wsc_entries pr.1
    if !vr.is_valid then (none, vr)
    else
      let binary := reconstruct_wsc_binary pr.1 preserve
      let recalcWarn : List String :=
        if preserve && !preserve_original_offsets pr.1 then
          ["Offsets were recalculated due to content changes"]
        else []
      let n := pr.1.length
      (some binary,
        ⟨true, pr.2.errors, pr.2.warnings ++ vr.warnings ++ recalcWarn,
          pr.2.suggestions ++ vr.suggestions ++ [s!"Successfully recompiled {n} entries"],
          vr.needs_recalculation⟩)

/-- The exact `<XXXXXXXX:XXXXXXXX>` header shape of the transcript format
specification: 8 hexadecimal digits on each side.  (Stated from the
format specification, for comparison with what the parser accepts.) -/
def eightHexHeader (line : String) : Bool :=
  decide (line.data.length = 19) &&
  decide (line.data.headD ' ' = '<') &&
  decide (line.data.getD 9 ' ' = ':') &&
  decide (line.data.getLast? = some '>') &&
  ((line.data.drop 1).take 8).all isHexDigitChar &&
  ((line.data.drop 10).take 8).all isHexDigitChar

/-- Prefix sums of entry binary lengths, as `Int` (the running total of
`calculate_new_offsets`). -/
def prefixLens (entries : List WSCEntry) (i : Nat) : Int :=
  (((entries.take i).map (fun e => ((entryBinary e).length : Int))).sum)

/-- The concrete buffer of the specification's end-to-end scenario:
`DAY0904`, a double-marker CP932 speaker name (夜久, the byte pair values
also used by the repository's own tests), a single-marker CP932 sentence
(こんにちは。), and `SE_104.ogg`, each null-terminated. -/
def c5Buffer : List Nat :=
  [0x44, 0x41, 0x59, 0x30, 0x39, 0x30, 0x34, 0x00] ++
  [0x0F, 0x0F, 0x96, 0xE9, 0x8B, 0x56, 0x00] ++
  [0x0F, 0x82, 0xB1, 0x82, 0xF1, 0x82, 0xC9, 0x82, 0xBF, 0x82, 0xCD,
    0x81, 0x42, 0x00] ++
  [0x53, 0x45, 0x5F, 0x31, 0x30, 0x34, 0x2E, 0x6F, 0x67, 0x67, 0x00]

/-! ### Helper lemmas -/

/-- `raw.startswith(b"\x0F")` is a check on the first byte. -/
theorem speakerByte_isPrefixOf_iff (raw : List Nat) :
    SPEAKER_BYTE.isPrefixOf raw = true ↔ raw.head? = some 0x0F := by
  cases raw with
  | nil =>
    constructor
    · intro h
      exact absurd h (by decide)
    · intro h
      simp at h
  | cons b t =>
    have h1 : SPEAKER_BYTE.isPrefixOf (b :: t) = (0x0F == b) := by
      simp only [SPEAKER_BYTE, List.isPrefixOf, Bool.and_true]
    rw [h1, beq_iff_eq]
    constructor
    · intro h
      rw [List.head?_cons, ← h]
    · intro h
      rw [List.head?_cons] at h
      injection h with h2
      exact h2.symm

/-- Every branch of `content_to_binary` ends in the null terminator. -/
theorem content_to_binary_shape (c : String) (sp : Bool) :
    ∃ body, content_to_binary c sp = body ++ [0] := by
  unfold content_to_binary
  split
  · split
    · exact ⟨_, rfl⟩
    · exact ⟨[], rfl⟩
  · split
    · split
      · exact ⟨_, rfl⟩
      · exact ⟨_, rfl⟩
    · exact ⟨[], rfl⟩

theorem content_to_binary_getLast? (c : String) (sp : Bool) :
    (content_to_binary c sp).getLast? = some 0 := by
  obtain ⟨body, h⟩ := content_to_binary_shape c sp
  rw [h]
  exact List.getLast?_concat _

theorem content_to_binary_ne_nil (c : String) (sp : Bool) :
    content_to_binary c sp ≠ [] := by
  obtain ⟨body, h⟩ := content_to_binary_shape c sp
  rw [h]
  simp

theorem content_to_binary_count_zero (c : String) (sp : Bool) :
    1 ≤ (content_to_binary c sp).count 0 := by
  obtain ⟨body, h⟩ := content_to_binary_shape c sp
  rw [h, List.count_append]
  simp

/-- `calculate_new_offsets` rewrites only the offsets, so the entry count
is unchanged. -/
theorem calc_length (l : List WSCEntry) (cur : Int) :
    (calculate_new_offsets l cur).length = l.length := by
  induction l generalizing cur with
  | nil => rfl
  | cons e rest ih => simp [calculate_new_offsets, ih]

/-- `calculate_new_offsets` does not touch `content`/`is_speaker`, so the
per-entry binaries are unchanged. -/
theorem calc_map_binary (l : List WSCEntry) (cur : Int) :
    (calculate_new_offsets l cur).map entryBinary = l.map entryBinary := by
  induction l generalizing cur with
  | nil => rfl
  | cons e rest ih =>
    obtain ⟨s, en, co, sp, ol⟩ := e
    simp [calculate_new_offsets, ih, entryBinary]

/-- The offsets `calculate_new_offsets` assigns: position `i` starts at
the running total of the earlier binaries' lengths and ends at the
inclusive end of its own binary. -/
theorem calc_get?_offsets (l : List WSCEntry) (cur : Int) (i : Nat) :
    ((calculate_new_offsets l cur).get? i).map (fun e => (e.start_offset, e.end_offset)) =
      (l.get? i).map (fun e =>
        (cur + prefixLens l i,
         cur + prefixLens l i + ((entryBinary e).length : Int) - 1)) := by
  induction l generalizing cur i with
  | nil => simp [calculate_new_offsets]
  | cons e rest ih =>
    cases i with
    | zero => simp [calculate_new_offsets, prefixLens]
    | succ i =>
      have hstep :
          (cur + ((entryBinary e).length : Int)) + prefixLens rest i =
            cur + prefixLens (e :: rest) (i + 1) := by
        unfold prefixLens
        rw [List.take_succ_cons, List.map_cons, List.sum_cons]
        ring
      simp only [calculate_new_offsets, List.get?]
      rw [ih (cur + ((entryBinary e).length : Int)) i]
      cases h : rest.get? i with
      | none => simp
      | some x =>
        simp only [Option.map_some']
        rw [hstep]

/-- `preserve_original_offsets` is the universal length test. -/
theorem preserve_iff (entries : List WSCEntry) :
    preserve_original_offsets entries = true ↔
      ∀ e ∈ entries, ((entryBinary e).length : Int) = e.original_length + 1 := by
  simp [preserve_original_offsets, List.all_eq_true]

theorem flatten_getLast?_zero (ls : List (List Nat)) (hne : ls ≠ [])
    (h : ∀ l ∈ ls, l.getLast? = some 0) : ls.flatten.getLast? = some 0 := by
  induction ls with
  | nil => exact absurd rfl hne
  | cons a rest ih =>
    by_cases hrest : rest = []
    · subst hrest
      have := h a (by simp)
      simpa using this
    · have htail := ih hrest (fun l hl => h l (List.mem_cons_of_mem _ hl))
      have hne2 : rest.flatten ≠ [] := by
        intro hnil
        rw [hnil] at htail
        simp at htail
      rw [List.flatten_cons, List.getLast?_append_of_ne_nil _ hne2]
      exact htail

theorem flatten_count_zero_ge (ls : List (List Nat))
    (h : ∀ l ∈ ls, 1 ≤ l.count 0) : ls.length ≤ ls.flatten.count 0 := by
  induction ls with
  | nil => simp
  | cons a rest ih =>
    simp only [List.flatten_cons, List.count_append, List.length_cons]
    have h1 := h a (by simp)
    have h2 := ih (fun l hl => h l (List.mem_cons_of_mem _ hl))
    omega

/-! ### Claims -/

/-- C7: for every byte buffer (the empty one and arbitrary bytes
included), `decode_try` tries `cp932`, then `shift_jis`, then `utf-8` in
that fixed order, returns the first success with its encoding tag, and
the final single-byte `latin-1` member accepts any byte sequence, so the
decoder chain always produces a result and `decode_try` never fails. -/
theorem decode_try_total_and_ordered (raw : List Nat) :
    (tryDecoders DECODERS raw).isSome = true ∧
    (∀ t, cp932Decode raw = some t → decode_try raw = (t, "cp932")) ∧
    (∀ t, cp932Decode raw = none → shiftJisDecode raw = some t →
      decode_try raw = (t, "shift_jis")) ∧
    (∀ t, cp932Decode raw = none → shiftJisDecode raw = none →
      utf8Decode raw = some t → decode_try raw = (t, "utf-8")) ∧
    (cp932Decode raw = none → shiftJisDecode raw = none → utf8Decode raw = none →
      decode_try raw = (latin1DecodeStr raw, "latin-1")) := by
  refine ⟨?_, ?_, ?_, ?_, ?_⟩
  · cases h1 : cp932Decode raw <;>
      cases h2 : utf8Decode raw <;>
        simp [tryDecoders, DECODERS, shiftJisDecode, h1, h2]
  · intro t h
    simp [decode_try, tryDecoders, DECODERS, h]
  · intro t h1 h2
    simp [decode_try, tryDecoders, DECODERS, h1, h2]
  · intro t h1 h2 h3
    simp [decode_try, tryDecoders, DECODERS, h1, h2, h3]
  · intro h1 h2 h3
    simp [decode_try, tryDecoders, DECODERS, h1, h2, h3]

/-- Witness for C7 at the concrete slice `[255]` (a lone lead byte all
three real decoders reject): the `latin-1` fallback handles it. -/
theorem decode_try_total_and_ordered_holds :
    decode_try [255] = (latin1DecodeStr [255], "latin-1") :=
  (decode_try_total_and_ordered [255]).2.2.2.2 (by decide) (by decide) (by decide)

/-- C9: the byte buffer `reconstruct_wsc_binary` returns is the same for
both values of `preserve_offsets` — always the concatenation, in entry
order, of the per-entry `content_to_binary` results; the flag only
affects the offset fields of the entries. -/
theorem reconstruct_mode_independent (entries : List WSCEntry) (preserve : Bool) :
    reconstruct_wsc_binary entries true = reconstruct_wsc_binary entries false ∧
    reconstruct_wsc_binary entries preserve = (entries.map entryBinary).flatten := by
  have key : ∀ p : Bool,
      reconstruct_wsc_binary entries p = (entries.map entryBinary).flatten := by
    intro p
    unfold reconstruct_wsc_binary reconcileEntries
    split
    · split
      · rfl
      · rw [calc_map_binary]
    · rw [calc_map_binary]
  exact ⟨(key true).trans (key false).symm, key preserve⟩

/-- C10: `content_to_binary` always returns a non-empty byte string ending
in the null terminator, so every entry contributes at least one null to
the reconstructed buffer, and the buffer of a non-empty entry list is
non-empty and null-terminated. -/
theorem content_to_binary_null_terminated (c : String) (sp : Bool)
    (entries : List WSCEntry) (preserve : Bool) (hne : entries ≠ []) :
    content_to_binary c sp ≠ [] ∧
    (content_to_binary c sp).getLast? = some 0 ∧
    entries.length ≤ (reconstruct_wsc_binary entries preserve).count 0 ∧
    reconstruct_wsc_binary entries preserve ≠ [] ∧
    (reconstruct_wsc_binary entries preserve).getLast? = some 0 := by
  have hflat : reconstruct_wsc_binary entries preserve =
      (entries.map entryBinary).flatten := by
    unfold reconstruct_wsc_binary reconcileEntries
    split
    · split
      · rfl
      · rw [calc_map_binary]
    · rw [calc_map_binary]
  have hlast : (reconstruct_wsc_binary entries preserve).getLast? = some 0 := by
    rw [hflat]
    refine flatten_getLast?_zero _ (by simpa using hne) ?_
    intro l hl
    obtain ⟨e, _, rfl⟩ := List.mem_map.mp hl
    exact content_to_binary_getLast? e.content e.is_speaker
  refine ⟨content_to_binary_ne_nil c sp, content_to_binary_getLast? c sp, ?_, ?_, hlast⟩
  · rw [hflat]
    have := flatten_count_zero_ge (entries.map entryBinary) ?_
    · simpa using this
    · intro l hl
      obtain ⟨e, _, rfl⟩ := List.mem_map.mp hl
      exact content_to_binary_count_zero e.content e.is_speaker
  · intro hnil
    rw [hnil] at hlast
    simp at hlast

/-- Witness for C10 at a concrete one-entry list. -/
theorem content_to_binary_null_terminated_holds :
    (reconstruct_wsc_binary [⟨0, 1, "A", false, 1⟩] true).getLast? = some 0 :=
  (content_to_binary_null_terminated "A" false [⟨0, 1, "A", false, 1⟩] true
    (by decide)).2.2.2.2

/-- C1: with `preserve_offsets=true`, if every entry's re-encoded binary
has byte length `original_length + 1` then every entry keeps its
`start_offset`/`end_offset` and the output is the concatenation of the
entries' binaries in entry order; if even one entry's length differs,
the whole file is recomputed sequentially (`start_offset` is the running
total of the earlier binaries' lengths, `end_offset` is
`start_offset + length - 1`), with no partial per-entry patching. -/
theorem offset_preservation_all_or_nothing (entries : List WSCEntry) :
    ((∀ e ∈ entries, ((entryBinary e).length : Int) = e.original_length + 1) →
      (reconcileEntries entries true).map (fun e => (e.start_offset, e.end_offset)) =
        entries.map (fun e => (e.start_offset, e.end_offset)) ∧
      reconstruct_wsc_binary entries true = (entries.map entryBinary).flatten) ∧
    ((¬ ∀ e ∈ entries, ((entryBinary e).length : Int) = e.original_length + 1) →
      reconcileEntries entries true = calculate_new_offsets entries 0 ∧
      ∀ i, ((calculate_new_offsets entries 0).get? i).map
          (fun e => (e.start_offset, e.end_offset)) =
        (entries.get? i).map (fun e =>
          (prefixLens entries i,
           prefixLens entries i + ((entryBinary e).length : Int) - 1))) := by
  constructor
  · intro hall
    have hp : preserve_original_offsets entries = true := (preserve_iff entries).mpr hall
    constructor
    · unfold reconcileEntries
      rw [if_pos rfl, if_pos hp]
    · unfold reconstruct_wsc_binary reconcileEntries
      rw [if_pos rfl, if_pos hp]
  · intro hnot
    have hp : preserve_original_offsets entries = false := by
      cases hcase : preserve_original_offsets entries with
      | false => rfl
      | true => exact absurd ((preserve_iff entries).mp hcase) hnot
    constructor
    · unfold reconcileEntries
      rw [if_pos rfl, hp]
      simp
    · intro i
      rw [calc_get?_offsets entries 0 i]
      cases h : entries.get? i with
      | none => simp
      | some x =>
        simp only [Option.map_some']
        rw [zero_add]

/-- Witness for C1 at a concrete one-entry list whose re-encoded length
matches `original_length + 1` (so preserve mode keeps the offsets). -/
theorem offset_preservation_all_or_nothing_holds :
    (reconcileEntries [⟨0, 1, "A", false, 1⟩] true).map
      (fun e => (e.start_offset, e.end_offset)) = [((0 : Int), (1 : Int))] := by
  have h := (offset_preservation_all_or_nothing [⟨0, 1, "A", false, 1⟩]).1 (by decide)
  exact h.1.trans (by decide)

/-- C4: `is_meaningful` keeps or drops by the ordered rules: whitespace-
only text is dropped; marker-prefixed raw bytes are always kept; text
with an East-Asian script character is kept; text matching one of the
fixed keep-patterns is kept; otherwise text is kept exactly when its
length is at least 3 and its printable fraction is at least one half. -/
theorem is_meaningful_rule_order (decoded : String) (raw : List Nat) :
    is_meaningful decoded raw = true ↔
      (pyStrip decoded ≠ "" ∧
        (raw.head? = some 0x0F ∨
         (∃ c ∈ (pyStrip decoded).data, isCJKChar c = true) ∨
         (∃ p ∈ KEEP_PATTERNS, p (pyStrip decoded) = true) ∨
         (3 ≤ (pyStrip decoded).length ∧
           (pyStrip decoded).length ≤ 2 * printableCount (pyStrip decoded)))) := by
  unfold is_meaningful
  by_cases h1 : pyStrip decoded = ""
  · rw [if_pos h1]
    simp [h1]
  · rw [if_neg h1]
    by_cases h2 : SPEAKER_BYTE.isPrefixOf raw = true
    · rw [if_pos h2]
      simp only [true_iff]
      exact ⟨h1, Or.inl ((speakerByte_isPrefixOf_iff raw).mp h2)⟩
    · rw [if_neg h2]
      by_cases h3 : (pyStrip decoded).data.any isCJKChar = true
      · rw [if_pos h3]
        simp only [true_iff]
        exact ⟨h1, Or.inr (Or.inl (by simpa [List.any_eq_true] using h3))⟩
      · rw [if_neg h3]
        by_cases h4 : (KEEP_PATTERNS.any fun p => p (pyStrip decoded)) = true
        · rw [if_pos h4]
          simp only [true_iff]
          exact ⟨h1, Or.inr (Or.inr (Or.inl (by simpa [List.any_eq_true] using h4)))⟩
        · rw [if_neg h4]
          have hm : raw.head? ≠ some 0x0F := fun hh =>
            h2 ((speakerByte_isPrefixOf_iff raw).mpr hh)
          have hc : ¬ ∃ c ∈ (pyStrip decoded).data, isCJKChar c = true := by
            simpa [List.any_eq_true] using h3
          have hk : ¬ ∃ p ∈ KEEP_PATTERNS, p (pyStrip decoded) = true := by
            simpa [List.any_eq_true] using h4
          constructor
          · intro h
            rw [Bool.and_eq_true, decide_eq_true_iff, decide_eq_true_iff] at h
            exact ⟨h1, Or.inr (Or.inr (Or.inr h))⟩
          · rintro ⟨-, hor⟩
            rcases hor with hx | hx | hx | hx
            · exact absurd hx hm
            · exact absurd hx hc
            · exact absurd hx hk
            · rw [Bool.and_eq_true, decide_eq_true_iff, decide_eq_true_iff]
              exact hx

/-- C2 counterexample: `convert_speaker` does not branch on the marker
count.  A record with exactly ONE marker byte whose CP932-decoded
remainder is name-shaped (`[0x0F, 0x82, 0xA0]`, i.e. `\x0F` + あ) is
rendered dot-prefixed, not as narration without a leading dot; and a
record with TWO marker bytes whose remainder fails the 1–8
East-Asian-name shape check (`[0x0F, 0x0F, 97, 98]`, i.e. `\x0F\x0Fab`)
is rendered without the dot (narration-style), not as a speaker-style
record.  Both halves of the claim fail on these inputs. -/
theorem convert_speaker_marker_count_counterexample :
    convert_speaker "\x0Fあ" [0x0F, 0x82, 0xA0] = ".あ" ∧
    pyStartsWith (convert_speaker "\x0Fあ" [0x0F, 0x82, 0xA0]) "." = true ∧
    convert_speaker "\x0F\x0Fab" [0x0F, 0x0F, 97, 98] = "ab" ∧
    pyStartsWith (convert_speaker "\x0F\x0Fab" [0x0F, 0x0F, 97, 98]) "." = false := by
  decide

/-- C2 as amended: `convert_speaker` treats every marker count `k ≥ 1`
uniformly — it strips all leading markers, decodes and trims the
remainder, and renders it dot-prefixed exactly when the trimmed remainder
passes the 1–8 East-Asian-name shape check (even for a single marker),
and without a dot otherwise (even for two or more markers). -/
theorem convert_speaker_uniform (decoded t : String) (k : Nat) (rest : List Nat)
    (hk : 1 ≤ k) (hhead : rest.head? ≠ some 0x0F) (hne : rest ≠ [])
    (hdec : cp932Decode rest = some t) :
    convert_speaker decoded (List.replicate k 0x0F ++ rest) =
      (if decide (1 ≤ (pyStrip t).length ∧ (pyStrip t).length ≤ 8) &&
          reJapaneseName (pyStrip t) then "." ++ pyStrip t
       else pyStrip t) := by
  obtain ⟨k1, rfl⟩ : ∃ k1, k = k1 + 1 := ⟨k - 1, by omega⟩
  have hpre : SPEAKER_BYTE.isPrefixOf (List.replicate (k1 + 1) 0x0F ++ rest) = true := by
    rw [speakerByte_isPrefixOf_iff]
    rw [List.replicate_succ, List.cons_append, List.head?_cons]
  have hdrop : ∀ (n : Nat),
      (List.replicate n 0x0F ++ rest).dropWhile (fun x => x == 0x0F) = rest := by
    intro n
    induction n with
    | zero =>
      rw [List.replicate, List.nil_append]
      cases hr : rest with
      | nil => rfl
      | cons y ys =>
        have hy : (y == 0x0F) = false := by
          rw [hr, List.head?_cons] at hhead
          rw [beq_eq_false_iff_ne]
          intro hcon
          exact hhead (by rw [hcon])
        rw [List.dropWhile_cons, hy]
        simp
    | succ n ih =>
      rw [List.replicate_succ, List.cons_append, List.dropWhile_cons]
      simpa using ih
  unfold convert_speaker
  rw [hpre]
  simp only [Bool.not_true, Bool.false_eq_true, if_false]
  rw [hdrop (k1 + 1)]
  have hemp : rest.isEmpty = false := by
    cases rest with
    | nil => exact absurd rfl hne
    | cons y ys => rfl
  rw [hemp]
  simp only [Bool.false_eq_true, if_false]
  rw [hdec]

/-- Witness for C2 (amended) with three markers and the CP932 bytes of
夜久: rendered as the dot-prefixed speaker name. -/
theorem convert_speaker_uniform_holds :
    convert_speaker "x" (List.replicate 3 0x0F ++ [0x96, 0xE9, 0x8B, 0x56]) = ".夜久" := by
  have h := convert_speaker_uniform "x" "夜久" 3 [0x96, 0xE9, 0x8B, 0x56]
    (by decide) (by decide) (by decide) (by decide)
  rw [h]
  decide

/-- C3 (evidence for the code bug): the narration content `"あ。"`
contains East-Asian script characters (`isCJKChar` holds of あ) and
carries no resource/audio/command head, yet `content_to_binary` with
`is_speaker = false` emits its CP932 bytes with NO leading `0x0F` marker
byte, because the code computes its `has_japanese` test with the
anchored 1–8-character name regex (`re_japanese_name.search`), which
fails on any sentence containing punctuation or more than 8 characters.
The single-marker narration round-trip the claim states is therefore
broken at this input. -/
theorem narration_marker_lost_at_failing_input :
    content_to_binary "あ。" false = [0x82, 0xA0, 0x81, 0x42, 0x00] ∧
    (content_to_binary "あ。" false).head? ≠ some 0x0F ∧
    "あ。".data.any isCJKChar = true ∧
    resourceHead "あ。" = false ∧
    reJapaneseName "あ。" = false := by
  decide

/-- C5: the concrete scenario.  Decoding `c5Buffer` keeps exactly four
records, rendered as the resource id `DAY0904`, the dot-prefixed speaker
`.夜久`, the non-prefixed narration `こんにちは。` and the audio name
`SE_104.ogg`; parsing the rendered transcript yields four entries and no
errors; re-encoding with `preserve_offsets = false` produces a buffer
with exactly four null terminators whose null-split segments decode back
(through the decompile transform) to the same four transcript strings. -/
theorem end_to_end_scenario :
    (keptRecords c5Buffer).map recordLine =
      ["DAY0904", ".夜久", "こんにちは。", "SE_104.ogg"] ∧
    pyStartsWith ".夜久" "." = true ∧
    pyStartsWith "こんにちは。" "." = false ∧
    (parse_github_format (decompileText c5Buffer)).1.length = 4 ∧
    (parse_github_format (decompileText c5Buffer)).2.errors = [] ∧
    (reconstruct_wsc_binary (parse_github_format (decompileText c5Buffer)).1
      false).count 0 = 4 ∧
    (keptRecords (reconstruct_wsc_binary
        (parse_github_format (decompileText c5Buffer)).1 false)).map recordLine =
      ["DAY0904", ".夜久", "こんにちは。", "SE_104.ogg"] := by
  decide

/-- `extractAux` with no bytes left emits nothing, whatever the fuel. -/
theorem extractAux_nil (fuel pos : Nat) : extractAux fuel [] pos = [] := by
  cases fuel <;> rfl

/-- Every run `extractAux` emits starts at or after the scan position. -/
theorem extractAux_start_ge (fuel : Nat) :
    ∀ (l : List Nat) (pos : Nat), ∀ r ∈ extractAux fuel l pos, pos ≤ r.start := by
  induction fuel with
  | zero =>
    intro l pos r hr
    simp [extractAux] at hr
  | succ fuel ih =>
    intro l pos r hr
    cases l with
    | nil => simp [extractAux] at hr
    | cons b rest =>
      by_cases hb : b = 0
      · rw [extractAux, if_pos hb] at hr
        exact le_trans (Nat.le_succ pos) (ih rest (pos + 1) r hr)
      · rw [extractAux, if_neg hb] at hr
        rcases List.mem_cons.mp hr with rfl | hr2
        · exact le_refl pos
        · exact le_trans (by omega) (ih _ _ r hr2)

/-- Prepending a zero to the rebuild position: the zero is absorbed into
the replicate block in front of the next run (or the tail block). -/
theorem rebuildRuns_shift (xs : List NullRun) (pos total : Nat)
    (hs : ∀ r ∈ xs, pos + 1 ≤ r.start) (ht : pos + 1 ≤ total) :
    rebuildRuns xs pos total = 0 :: rebuildRuns xs (pos + 1) total := by
  cases xs with
  | nil =>
    show List.replicate (total - pos) 0 = 0 :: List.replicate (total - (pos + 1)) 0
    rw [show total - pos = (total - (pos + 1)) + 1 by omega, List.replicate_succ]
  | cons r rest =>
    have hr := hs r (by simp)
    show List.replicate (r.start - pos) 0 ++ r.raw ++ rebuildRuns rest r.stop total =
      0 :: (List.replicate (r.start - (pos + 1)) 0 ++ r.raw ++ rebuildRuns rest r.stop total)
    rw [show r.start - pos = (r.start - (pos + 1)) + 1 by omega, List.replicate_succ,
      List.cons_append, List.cons_append]

/-- The first element `dropWhile (· ≠ 0)` leaves behind is zero. -/
theorem dropWhile_zero_head (l : List Nat) :
    ∀ y t, l.dropWhile (fun x => !(x == 0)) = y :: t → y = 0 := by
  induction l with
  | nil =>
    intro y t h
    simp at h
  | cons c rest ih =>
    intro y t h
    by_cases hc : c = 0
    · subst hc
      rw [List.dropWhile_cons] at h
      simp at h
      exact h.1.symm
    · rw [List.dropWhile_cons, if_pos (by simp [hc])] at h
      exact ih y t h

/-- Elements of `takeWhile (· ≠ 0)` are non-zero. -/
theorem mem_takeWhile_nonzero (l : List Nat) :
    ∀ x ∈ l.takeWhile (fun b => !(b == 0)), x ≠ 0 := by
  induction l with
  | nil => intro x hx; simp at hx
  | cons c rest ih =>
    intro x hx
    rw [List.takeWhile_cons] at hx
    by_cases hc : c = 0
    · rw [if_neg (by simp [hc])] at hx
      simp at hx
    · rw [if_pos (by simp [hc])] at hx
      rcases List.mem_cons.mp hx with rfl | hx2
      · exact hc
      · exact ih x hx2

/-- Main reconstruction lemma: with enough fuel (the remaining length
always suffices), rebuilding the emitted runs from the scan position
reproduces the remaining buffer exactly. -/
theorem rebuild_extractAux (fuel : Nat) :
    ∀ (l : List Nat) (pos : Nat), l.length ≤ fuel →
      rebuildRuns (extractAux fuel l pos) pos (pos + l.length) = l := by
  induction fuel with
  | zero =>
    intro l pos h
    have hl : l = [] := List.eq_nil_of_length_eq_zero (Nat.le_zero.mp h)
    subst hl
    simp [extractAux, rebuildRuns]
  | succ fuel ih =>
    intro l pos h
    cases l with
    | nil => simp [extractAux, rebuildRuns]
    | cons b rest =>
      by_cases hb : b = 0
      · subst hb
        have hNz : pos + (0 :: rest).length = (pos + 1) + rest.length := by
          simp only [List.length_cons]
          omega
        rw [extractAux, if_pos rfl, hNz]
        rw [rebuildRuns_shift _ _ _
          (fun r hr => extractAux_start_ge fuel rest (pos + 1) r hr) (by omega)]
        rw [ih rest (pos + 1) (by simpa using h)]
      · rw [extractAux, if_neg hb]
        show List.replicate (pos - pos) 0 ++ (b :: rest.takeWhile (fun x => !(x == 0))) ++
          rebuildRuns
            (extractAux fuel ((rest.dropWhile (fun x => !(x == 0))).drop 1)
              (pos + (b :: rest.takeWhile (fun x => !(x == 0))).length + 1))
            (pos + (b :: rest.takeWhile (fun x => !(x == 0))).length)
            (pos + (b :: rest).length) = b :: rest
        rw [Nat.sub_self, List.replicate_zero, List.nil_append]
        cases hdw : rest.dropWhile (fun x => !(x == 0)) with
        | nil =>
          have hrest : rest.takeWhile (fun x => !(x == 0)) = rest := by
            have h2 := List.takeWhile_append_dropWhile
              (p := fun x => !(x == 0)) (l := rest)
            rw [hdw, List.append_nil] at h2
            exact h2
          rw [show (List.drop 1 ([] : List Nat)) = [] from rfl, extractAux_nil]
          rw [rebuildRuns, hrest, Nat.sub_self, List.replicate_zero, List.append_nil]
        | cons y t =>
          have hy : y = 0 := dropWhile_zero_head rest y t hdw
          subst hy
          have hrest : rest.takeWhile (fun x => !(x == 0)) ++ 0 :: t = rest := by
            have h2 := List.takeWhile_append_dropWhile
              (p := fun x => !(x == 0)) (l := rest)
            rw [hdw] at h2
            exact h2
          have h3 := congrArg List.length hrest
          simp only [List.length_append, List.length_cons] at h3
          rw [show (List.drop 1 (0 :: t)) = t from rfl]
          have hle : t.length ≤ fuel := by
            have h2 : (b :: rest).length ≤ fuel + 1 := h
            simp only [List.length_cons] at h2
            omega
          have hN : pos + (b :: rest).length =
              (pos + (b :: rest.takeWhile (fun x => !(x == 0))).length + 1) + t.length := by
            simp only [List.length_cons]
            omega
          rw [hN]
          rw [rebuildRuns_shift _ _ _
            (fun r hr => extractAux_start_ge fuel t _ r hr) (by omega)]
          rw [ih t _ hle]
          rw [List.cons_append, hrest]

/-- Soundness of the emitted runs: each run is non-empty, covers the
half-open range `[start, stop)` (`stop = start + |raw|`), and contains
only non-zero bytes. -/
theorem extractAux_runs_sound (fuel : Nat) :
    ∀ (l : List Nat) (pos : Nat), ∀ r ∈ extractAux fuel l pos,
      r.raw ≠ [] ∧ r.stop = r.start + r.raw.length ∧ ∀ b ∈ r.raw, b ≠ 0 := by
  induction fuel with
  | zero =>
    intro l pos r hr
    simp [extractAux] at hr
  | succ fuel ih =>
    intro l pos r hr
    cases l with
    | nil => simp [extractAux] at hr
    | cons b rest =>
      by_cases hb : b = 0
      · rw [extractAux, if_pos hb] at hr
        exact ih rest (pos + 1) r hr
      · rw [extractAux, if_neg hb] at hr
        rcases List.mem_cons.mp hr with rfl | hr2
        · refine ⟨by simp, rfl, ?_⟩
          intro x hx
          rcases List.mem_cons.mp hx with rfl | hx2
          · exact hb
          · exact mem_takeWhile_nonzero rest x hx2
        · exact ih _ _ r hr2

/-- C6: for every byte buffer, `extract_all_null_strings` emits exactly
the maximal non-zero runs with their absolute half-open ranges, skips
zero-length runs, handles a tail without a trailing null, and rebuilding
from the runs — their bytes, with the terminator and skipped null bytes
as the zero gaps between them — reproduces the buffer exactly. -/
theorem extraction_complete (data : List Nat) :
    rebuildRuns (extract_all_null_strings data) 0 data.length = data ∧
    ∀ r ∈ extract_all_null_strings data,
      r.raw ≠ [] ∧ r.stop = r.start + r.raw.length ∧ ∀ b ∈ r.raw, b ≠ 0 := by
  constructor
  · have h := rebuild_extractAux data.length data 0 (le_refl _)
    simpa using h
  · exact fun r hr => extractAux_runs_sound data.length data 0 r hr

/-- Witness for C6 at the concrete buffer `[65, 0, 66]` (two runs, one
terminator, tail without a trailing null). -/
theorem extraction_complete_holds :
    rebuildRuns (extract_all_null_strings [65, 0, 66]) 0
      ([65, 0, 66] : List Nat).length = [65, 0, 66] ∧
    (⟨2, 3, [66], "B"⟩ : NullRun).raw ≠ [] := by
  have h := extraction_complete [65, 0, 66]
  exact ⟨h.1, (h.2 ⟨2, 3, [66], "B"⟩ (by decide)).1⟩

/-- C8 counterexample: the parser does NOT require the exact
`<XXXXXXXX:XXXXXXXX>` 8-hex-digit shape.  The header line `<0:1>` fails
the 8-digit shape but is accepted with no structural error, because the
code only checks `startswith('<')`, `':' in line`, `endswith('>')` and
that both sides parse with `int(side, 16)`. -/
theorem header_acceptance_counterexample :
    eightHexHeader "<0:1>" = false ∧
    headerAccepted "<0:1>" = true ∧
    (parse_github_format "<0:1>\nDAY").1.length = 1 ∧
    (parse_github_format "<0:1>\nDAY").2.errors = [] ∧
    (recompile_wsc_text "<0:1>\nDAY" false).1.isSome = true := by
  decide

/-- C8 as amended: a non-blank line is accepted as a header exactly when
it starts with `<`, contains `:`, ends with `>` and both colon-separated
sides of its interior parse as (Python `int(x, 16)`) hexadecimal
integers; an accepted header produces an entry and consumes the
following content line; a rejected line produces one structural error
for that line and parsing continues with the remaining lines; and when
any structural parse error exists, `recompile` produces no binary. -/
theorem parse_error_policy (line : String) (rest : List String) (i : Nat)
    (text : String) (preserve : Bool) (hline : pyStrip line ≠ "") :
    (headerAccepted (pyStrip line) = true →
      ∃ e, (parseLoop (line :: rest) i).1 = e :: (parseLoop rest.tail (i + 2)).1 ∧
        (parseLoop (line :: rest) i).2.1 = (parseLoop rest.tail (i + 2)).2.1) ∧
    (headerAccepted (pyStrip line) = false →
      (parseLoop (line :: rest) i).1 = (parseLoop rest (i + 1)).1 ∧
      ∃ msg, (parseLoop (line :: rest) i).2.1 = msg :: (parseLoop rest (i + 1)).2.1) ∧
    ((parse_github_format text).2.errors ≠ [] →
      (recompile_wsc_text text preserve).1 = none) := by
  refine ⟨?_, ?_, ?_⟩
  · intro hacc
    rw [headerAccepted, Bool.and_eq_true] at hacc
    obtain ⟨hshape, hsome⟩ := hacc
    obtain ⟨se, hse⟩ := Option.isSome_iff_exists.mp hsome
    cases rest with
    | nil =>
      simp only [parseLoop, hline, hshape, hse, if_true, if_false, ite_false,
        ite_true, List.tail_nil]
      exact ⟨_, rfl, trivial⟩
    | cons c rest2 =>
      simp only [parseLoop, hline, hshape, hse, if_true, if_false, ite_false,
        ite_true, List.tail_cons]
      exact ⟨_, rfl, trivial⟩
  · intro hacc
    by_cases hshape : headerShaped (pyStrip line) = true
    · have hnone : headerOffsets (pyStrip line) = none := by
        rw [headerAccepted, hshape, Bool.true_and] at hacc
        cases hcase : headerOffsets (pyStrip line) with
        | none => rfl
        | some v =>
          rw [hcase] at hacc
          simp at hacc
      refine ⟨?_, ?_⟩
      · simp [parseLoop, hline, hshape, hnone]
      · simp only [parseLoop, hline, hshape, hnone, if_true, if_false, ite_true,
          ite_false]
        exact ⟨_, rfl⟩
    · have hshapef : headerShaped (pyStrip line) = false := by
        cases hcase : headerShaped (pyStrip line) with
        | false => rfl
        | true => exact absurd hcase hshape
      refine ⟨?_, ?_⟩
      · simp [parseLoop, hline, hshapef]
      · simp only [parseLoop, hline, hshapef, if_true, if_false, ite_true,
          ite_false, Bool.false_eq_true]
        exact ⟨_, rfl⟩
  · intro herr
    have hval : (parse_github_format text).2.is_valid = false := by
      unfold parse_github_format at herr ⊢
      by_cases hemp :
          (parseLoop (pySplitNL (pyStrip text)) 0).1.isEmpty = true
      · rw [if_pos hemp] at herr ⊢
      · rw [if_neg hemp] at herr ⊢
        show (parseLoop (pySplitNL (pyStrip text)) 0).2.1.isEmpty = false
        have herr2 : (parseLoop (pySplitNL (pyStrip text)) 0).2.1 ≠ [] := herr
        cases hl : (parseLoop (pySplitNL (pyStrip text)) 0).2.1 with
        | nil => exact absurd hl herr2
        | cons a l => rfl
    unfold recompile_wsc_text
    simp [hval]

/-- Witness for C8 (amended), discharging its hypotheses at the
non-header line `"garbage"`: recompilation of that text yields no
binary. -/
theorem parse_error_policy_holds :
    (recompile_wsc_text "garbage" true).1 = none := by
  have h := parse_error_policy "garbage" [] 0 "garbage" true (by decide)
  exact h.2.2 (by decide)

end WSC
